import Mathlib

/-!
Verification of the typed capture-binding engine of the `recap` crate
(`recap/src/lib.rs`, `recap-derive/src/lib.rs`,
`recap-derive/src/impl_deserialize.rs`).

The embedding models:
  * the capture-extraction step of `from_captures` over an abstract model of
    a compiled regex (the `regex` crate is an external collaborator; a
    `RegexModel` records exactly the API surface `from_captures` and the
    derive output consume: `capture_names()`, `captures()`, `name()`,
    `get(1)`, `is_match()`);
  * the serde-driven record binding performed by `from_iter` /
    `MapDeserializer` together with the `Val`/`VarName` deserializers and
    the serde-derived struct visitor of the target type (field matching by
    serde name, duplicate detection, unknown-key skipping, missing-field
    resolution in declaration order with `Option`/`#[serde(default)]`
    handling);
  * the `Val` value deserializer: string pass-through, `parse::<T>()`
    coercions from the `forward_parsed_values!` macro, `deserialize_seq`
    comma splitting, `deserialize_option` via `visit_some(self)`, and the
    nested-struct path of `impl_deserialize.rs` (`visit_str` running
    `from_captures` on the nested type's own regex);
  * the structured ("Mode B") path of `impl_deserialize.rs`, where the
    derived `__DeserializeHelper` binds directly from an already-structured
    map value;
  * the `TryFrom<&str>` implementation generated by `derive_recap` for
    enums (ordered variant trial with named / unnamed / unit variant arms).
-/

namespace Recap

/-- Model of `envy::Error` (re-exported as `recap::Error`) refined by the
distinct message formats the engine produces.  In Rust most variants below
are `Custom(msg)` with the message format noted here; the formats have
pairwise distinct fixed prefixes, so representing them as separate
constructors is faithful:
  * `noMatch input` — `Custom("No captures resolved in string '<input>'")`,
    produced by `from_captures` when `re.captures(input)` is `None`;
  * `missingValue field` — `envy::Error::MissingValue`, rendered
    `"missing value for field <field>"`, produced by serde's
    `missing_field` for a required field;
  * `parseError diag raw field` — `Custom("<diag> while parsing value
    '<raw>' provided by <field>")` from the `forward_parsed_values!` macro;
  * `duplicateField field` — serde's `duplicate_field`, rendered
    `Custom("duplicate field `<field>`")`;
  * `invalidType unexpected expected` — serde's `invalid_type` message,
    produced on a structured-mode shape mismatch;
  * `custom msg` — any other `de::Error::custom` payload. -/
inductive Error where
  | noMatch (input : String)
  | missingValue (field : String)
  | parseError (diag : String) (raw : String) (field : String)
  | duplicateField (field : String)
  | invalidType (unexpected : String) (expected : String)
  | custom (msg : String)
deriving DecidableEq, Repr

/-- A bound field value.  Integer targets of every width are carried as
`Int` (their parsed mathematical value; width enters only through the
range checks of parsing).  Float targets carry the accepted literal: the
engine never computes with floats, it only checks the literal against the
grammar of Rust's `f32`/`f64` `FromStr` and stores the parsed number. -/
inductive FieldValue where
  | vStr (s : String)
  | vBool (b : Bool)
  | vInt (n : Int)
  | vFloat (lit : String)
  | vOpt (v : Option FieldValue)
  | vList (elems : List FieldValue)
  | vRecord (fields : List FieldValue)
deriving Repr

/-- The result of one successful regex match, as consumed by the engine:
`named` lists the named groups that participated (declaration order) with
their matched text — `caps.name(n)` is lookup in it; `group1` is
`caps.get(1)` (used only by the derived enum code for unnamed variants). -/
structure Caps where
  named : List (String × String)
  group1 : Option String := none

/-- Model of a compiled `regex::Regex` as consumed by the engine: `names`
is `capture_names()` (index 0 is the implicit unnamed whole-match group,
hence `Option String`), and `caps input` is `captures(input)`. -/
structure RegexModel where
  names : List (Option String)
  caps : String → Option Caps

/-- `Regex::is_match`: the regex crate guarantees `is_match` agrees with
`captures(..).is_some()`. -/
def RegexModel.isMatch (re : RegexModel) (s : String) : Bool :=
  (re.caps s).isSome

/-- `caps.name(n)`: the text of the named group `n`, if it participated. -/
def Caps.name (c : Caps) (n : String) : Option String :=
  c.named.lookup n

/-- The iterator built by `from_captures` and handed to `from_iter`:
`re.capture_names().map(|maybe_name| maybe_name.and_then(|name|
caps.name(name).map(|val| (name, val.as_str())))).flatten()`. -/
def capturePairs (re : RegexModel) (c : Caps) : List (String × String) :=
  re.names.filterMap (fun maybeName =>
    maybeName.bind (fun n => (c.name n).map (fun v => (n, v))))

/-! ### Scalar coercion: `self.1.parse::<$ty>()` from `forward_parsed_values!`

The macro body is
`match self.1.parse::<$ty>() { Ok(val) => .., Err(e) => Err(de::Error::custom(
format_args!("{} while parsing value '{}' provided by {}", e, self.1, self.0))) }`.
The parse functions below model Rust core's `FromStr` for the listed
types (external standard-library behavior), including the exact
`ParseIntError` / `ParseBoolError` / `ParseFloatError` display strings
used as the `{e}` part of the message. -/

/-- Accumulate decimal digits as `u*::from_str` does: each character must
be a digit, and each intermediate value must stay within `max`
(`checked_mul`/`checked_add`); the first violation in character order
produces the error. -/
def parseUDigits (max : Nat) : List Char → Nat → Except String Nat
  | [], acc => .ok acc
  | c :: cs, acc =>
    if c.isDigit then
      let acc' := acc * 10 + (c.toNat - 48)
      if acc' > max then .error "number too large to fit in target type"
      else parseUDigits max cs acc'
    else .error "invalid digit found in string"

/-- Negative-side accumulation for `i*::from_str` (`checked_sub` from 0):
intermediate values must stay at or above `min`. -/
def parseNDigits (min : Int) : List Char → Int → Except String Int
  | [], acc => .ok acc
  | c :: cs, acc =>
    if c.isDigit then
      let acc' := acc * 10 - (c.toNat - 48 : Nat)
      if acc' < min then .error "number too small to fit in target type"
      else parseNDigits min cs acc'
    else .error "invalid digit found in string"

/-- `u{8,16,32,64}::from_str` with maximum value `max`.  A lone sign is an
invalid digit; a `'-'` sign is not recognised for unsigned types (its
character reaches the digit loop and is rejected as an invalid digit);
the empty string has its own error. -/
def parseUnsigned (max : Nat) (s : String) : Except String Nat :=
  match s.data with
  | [] => .error "cannot parse integer from empty string"
  | ['+'] => .error "invalid digit found in string"
  | ['-'] => .error "invalid digit found in string"
  | '+' :: rest => parseUDigits max rest 0
  | ds => parseUDigits max ds 0

/-- `i{8,16,32,64}::from_str` with bounds `[min, max]`. -/
def parseSigned (min max : Int) (s : String) : Except String Int :=
  match s.data with
  | [] => .error "cannot parse integer from empty string"
  | ['+'] => .error "invalid digit found in string"
  | ['-'] => .error "invalid digit found in string"
  | '+' :: rest => (parseUDigits max.toNat rest 0).map (Int.ofNat ·)
  | '-' :: rest => parseNDigits min rest 0
  | ds => (parseUDigits max.toNat ds 0).map (Int.ofNat ·)

/-- `bool::from_str`: exactly `"true"` or `"false"`. -/
def parseBoolRust (s : String) : Except String Bool :=
  if s = "true" then .ok true
  else if s = "false" then .ok false
  else .error "provided string was not `true` or `false`"

/-- Optional exponent suffix of the float grammar:
`Exp ::= ('e' | 'E') Sign? Count`. -/
def floatExpOk : List Char → Bool
  | [] => true
  | c :: rest =>
    if c = 'e' || c = 'E' then
      let digits := match rest with
        | '+' :: r => r
        | '-' :: r => r
        | r => r
      !digits.isEmpty && digits.all Char.isDigit
    else false

/-- `Number ::= Count '.'? Count? Exp? | '.' Count Exp?` -/
def floatNumberOk (cs : List Char) : Bool :=
  let intPart := cs.takeWhile Char.isDigit
  let rest := cs.dropWhile Char.isDigit
  match rest with
  | '.' :: rest' =>
    let fracPart := rest'.takeWhile Char.isDigit
    let rest'' := rest'.dropWhile Char.isDigit
    (!intPart.isEmpty || !fracPart.isEmpty) && floatExpOk rest''
  | _ => !intPart.isEmpty && floatExpOk rest

/-- Acceptance grammar of `f32::from_str` / `f64::from_str` (identical for
both widths; only rounding differs, which never produces an error):
`Float ::= Sign? ('inf' | 'infinity' | 'nan' | Number)` with
case-insensitive keywords. -/
def isFloatLit (s : String) : Bool :=
  let body := match s.data with
    | '+' :: rest => rest
    | '-' :: rest => rest
    | ds => ds
  let lower := body.map Char.toLower
  lower = "inf".data || lower = "infinity".data || lower = "nan".data ||
    floatNumberOk body

/-- The scalar target types dispatched by `forward_parsed_values!`, plus
string targets (which `Val` serves through `deserialize_any` /
`BorrowedStrDeserializer` without parsing). -/
inductive ScalarKind where
  | sStr | sBool
  | sU8 | sU16 | sU32 | sU64
  | sI8 | sI16 | sI32 | sI64
  | sF32 | sF64
deriving DecidableEq, Repr

/-- `raw.parse::<uN>()` coercion with the `forward_parsed_values!` error
wrapping. -/
def coerceUnsigned (max : Nat) (field raw : String) : Except Error FieldValue :=
  match parseUnsigned max raw with
  | .ok n => .ok (.vInt n)
  | .error d => .error (.parseError d raw field)

/-- `raw.parse::<iN>()` coercion with the `forward_parsed_values!` error
wrapping. -/
def coerceSigned (min max : Int) (field raw : String) : Except Error FieldValue :=
  match parseSigned min max raw with
  | .ok n => .ok (.vInt n)
  | .error d => .error (.parseError d raw field)

/-- One scalar deserialization step of `Val(field, raw)`:
  * string targets hand `raw` through unchanged
    (`BorrowedStrDeserializer::new(self.1).deserialize_any(visitor)`);
  * the remaining targets run `raw.parse::<$ty>()` and wrap a failure
    diagnostic `e` as
    `custom("{e} while parsing value '{raw}' provided by {field}")`. -/
def parseScalar (k : ScalarKind) (field raw : String) : Except Error FieldValue :=
  match k with
  | .sStr => .ok (.vStr raw)
  | .sBool =>
    match parseBoolRust raw with
    | .ok b => .ok (.vBool b)
    | .error d => .error (.parseError d raw field)
  | .sF32 | .sF64 =>
    if isFloatLit raw then .ok (.vFloat raw)
    else .error (.parseError "invalid float literal" raw field)
  | .sU8 => coerceUnsigned 255 field raw
  | .sU16 => coerceUnsigned 65535 field raw
  | .sU32 => coerceUnsigned 4294967295 field raw
  | .sU64 => coerceUnsigned 18446744073709551615 field raw
  | .sI8 => coerceSigned (-128) 127 field raw
  | .sI16 => coerceSigned (-32768) 32767 field raw
  | .sI32 => coerceSigned (-2147483648) 2147483647 field raw
  | .sI64 => coerceSigned (-9223372036854775808) 9223372036854775807 field raw

/-! ### Target record shapes

A `FieldSpec` is the binding-relevant description of one struct field as
the serde-derived code of the target type (or of the
`__DeserializeHelper` shadow type from `impl_deserialize.rs`) fixes it:
the serde name used for matching map keys (after any
`#[serde(rename)]` / `rename_all`), the result of a
`#[serde(default = ..)]` supplier if one is configured, and the field's
value shape.  A `nested` shape carries the nested type's own regex
(used by the `visit_str` arm of its custom `Deserialize` impl). -/

mutual
inductive FieldShape where
  | scalar (k : ScalarKind)
  | optional (sh : FieldShape)
  | seq (k : ScalarKind)
  | nested (re : RegexModel) (sub : List FieldSpec)
inductive FieldSpec where
  | mk (key : String) (dflt : Option FieldValue) (shape : FieldShape)
end

/-- The serde name this field is matched and reported by. -/
def FieldSpec.key : FieldSpec → String
  | .mk k _ _ => k

/-- The `#[serde(default)]` supplier's value, when configured. -/
def FieldSpec.dflt : FieldSpec → Option FieldValue
  | .mk _ d _ => d

/-- The field's value shape. -/
def FieldSpec.shape : FieldSpec → FieldShape
  | .mk _ _ sh => sh

/-- Whether the field's Rust type is `Option<_>` (serde resolves a missing
`Option` field to `None` via its `missing_field` helper). -/
def FieldShape.isOptional : FieldShape → Bool
  | .optional _ => true
  | _ => false

/-- Locate the field a map key belongs to, as the derived
`Field` identifier visitor does: first field whose serde name equals the
key, together with its position. -/
def findField : List FieldSpec → String → Option (Nat × FieldSpec)
  | [], _ => none
  | f :: fs, k =>
    if f.key = k then some (0, f)
    else (findField fs k).map (fun p => (p.1 + 1, p.2))

theorem findField_mem {fields : List FieldSpec} {k : String} {i : Nat}
    {f : FieldSpec} (h : findField fields k = some (i, f)) : f ∈ fields := by
  induction fields generalizing i with
  | nil => simp [findField] at h
  | cons g gs ih =>
    rw [findField] at h
    by_cases hk : g.key = k
    · rw [if_pos hk] at h
      simp only [Option.some.injEq, Prod.mk.injEq] at h
      obtain ⟨-, rfl⟩ := h
      exact List.mem_cons_self g gs
    · rw [if_neg hk] at h
      match hfind : findField gs k with
      | none => rw [hfind] at h; simp at h
      | some (j, f') =>
        rw [hfind] at h
        simp only [Option.map_some', Option.some.injEq, Prod.mk.injEq] at h
        obtain ⟨-, rfl⟩ := h
        exact List.mem_cons_of_mem _ (ih (i := j) hfind)

theorem sizeOf_shape_lt_of_mem {fields : List FieldSpec} {f : FieldSpec}
    (h : f ∈ fields) : sizeOf f.shape < sizeOf fields := by
  have h1 : sizeOf f < sizeOf fields := List.sizeOf_lt_of_mem h
  have h2 : sizeOf f.shape < sizeOf f := by
    cases f with
    | mk k d sh => simp [FieldSpec.shape]
  omega

/-- Accumulator pass of `splitComma`. -/
def splitCommaAux : List Char → List Char → List String
  | [], acc => [String.mk acc.reverse]
  | c :: cs, acc =>
    if c = ',' then String.mk acc.reverse :: splitCommaAux cs []
    else splitCommaAux cs (c :: acc)

/-- Rust's `str::split(',')` as used in `Val::deserialize_seq`
(`self.1.split(',')`): a string with `n` commas yields `n + 1` pieces; in
particular the empty string yields the one-element list `[""]`. -/
def splitComma (s : String) : List String :=
  splitCommaAux s.data []

/-- Element-by-element coercion of an expanded sequence: the
`SeqDeserializer` built in `Val::deserialize_seq` feeds each split piece,
as a fresh `Val(field, piece)`, to the element type's deserializer; the
first element error aborts the walk. -/
def seqElems (k : ScalarKind) (field : String) :
    List String → Except Error (List FieldValue)
  | [] => .ok []
  | piece :: rest =>
    match parseScalar k field piece with
    | .error e => .error e
    | .ok v => (seqElems k field rest).map (fun vs => v :: vs)

/-- The tail of the serde-derived struct visitor, shared by the flat and
structured paths because both deserialize the same (derived) helper
type: after the map walk, fields are resolved in declaration order —
a filled slot is used as is; otherwise a configured
`#[serde(default)]` supplier wins; otherwise serde's `missing_field`
helper yields `None` for an `Option` field and the
`missing value for field <key>` error (with the serde name) for any
other shape.  The first missing required field aborts. -/
def finalizeFields : List FieldSpec → List (Option FieldValue) →
    Except Error (List FieldValue)
  | [], _ => .ok []
  | f :: fs, slots =>
    let rest := slots.tail
    match slots.headD none with
    | some v => (finalizeFields fs rest).map (fun vs => v :: vs)
    | none =>
      match f.dflt with
      | some d => (finalizeFields fs rest).map (fun vs => d :: vs)
      | none =>
        if f.shape.isOptional then
          (finalizeFields fs rest).map (fun vs => .vOpt none :: vs)
        else .error (.missingValue f.key)

mutual
/-- The `Val(field, raw)` deserializer of `recap/src/lib.rs`, dispatched
by the target shape the serde-derived code of the record demands:
  * scalars go through `forward_parsed_values!` / `deserialize_any`;
  * `deserialize_option` runs `visitor.visit_some(self)` — the wrapped
    type deserializes the same `Val`, and its errors propagate;
  * `deserialize_seq` splits the raw string on a literal comma
    (`self.1.split(',')`) and feeds every piece to the element type;
  * a nested record field (a type whose custom `Deserialize` from
    `impl_deserialize.rs` is in force) reaches its `visit_str`, which
    re-runs `from_captures` against the nested type's own regex; its
    error is re-wrapped by `serde::de::Error::custom(e)`, which renders
    the same message, so the wrap is the identity on this error model. -/
def valD (sh : FieldShape) (field raw : String) : Except Error FieldValue :=
  match sh with
  | .scalar k => parseScalar k field raw
  | .optional sh' =>
    match valD sh' field raw with
    | .ok v => .ok (.vOpt (some v))
    | .error e => .error e
  | .seq k => (seqElems k field (splitComma raw)).map .vList
  | .nested re sub =>
    match re.caps raw with
    | none => .error (.noMatch raw)
    | some c =>
      match fillA sub (List.replicate sub.length none) (capturePairs re c) with
      | .error e => .error e
      | .ok filled => (finalizeFields sub filled).map .vRecord
termination_by (sizeOf sh, 0)
decreasing_by
  · apply Prod.Lex.left
    simp
  · apply Prod.Lex.left
    simp

/-- The entry walk of the serde-derived `visit_map` driven by
`MapDeserializer` over the capture pairs: for each `(key, value)` pair in
iterator order, an unknown key is skipped (`IgnoredAny`; infallible for
these values), a key whose slot is already filled raises
`duplicate_field` before touching the value, and otherwise the value is
deserialized by the field's shape and stored. -/
def fillA (fields : List FieldSpec) (filled : List (Option FieldValue)) :
    List (String × String) → Except Error (List (Option FieldValue))
  | [] => .ok filled
  | (k, v) :: rest =>
    match h : findField fields k with
    | none => fillA fields filled rest
    | some (i, f) =>
      if (filled.getD i none).isSome then .error (.duplicateField k)
      else
        match valD f.shape k v with
        | .error e => .error e
        | .ok fv => fillA fields (filled.set i (some fv)) rest
termination_by entries => (sizeOf fields, entries.length)
decreasing_by
  · apply Prod.Lex.right
    simp
  · apply Prod.Lex.left
    exact sizeOf_shape_lt_of_mem (findField_mem h)
  · apply Prod.Lex.right
    simp
end

/-- `from_iter`, specialised to a struct target: run the derived
`visit_map` over the `(name, value)` iterator, then resolve the fields in
declaration order. -/
def bindRecordA (fields : List FieldSpec) (entries : List (String × String)) :
    Except Error (List FieldValue) :=
  match fillA fields (List.replicate fields.length none) entries with
  | .error e => .error e
  | .ok filled => finalizeFields fields filled

/-- `from_captures(re, input)` for a struct target described by `fields`:
`re.captures(input)` failing is the
`Custom("No captures resolved in string '<input>'")` error; otherwise the
participating named groups are handed to `from_iter`. -/
def fromCaptures (re : RegexModel) (fields : List FieldSpec) (input : String) :
    Except Error (List FieldValue) :=
  match re.caps input with
  | none => .error (.noMatch input)
  | some c => bindRecordA fields (capturePairs re c)

/-! ### Mode B: binding from an already-structured value

`impl_deserialize.rs` makes the derived `Deserialize` of a
`#[recap(handle_deserialize)]` struct forward every non-string shape of
input to the serde-derived `__DeserializeHelper` — in particular
`visit_map` forwards through a `MapAccessDeserializer`, so a structured
document (e.g. a JSON object) binds through exactly the same derived
field-matching code as the capture pairs do.  `SVal` models the
structured values such a document supplies. -/

inductive SVal where
  | s (v : String)
  | i (n : Int)
  | b (v : Bool)
  | arr (elems : List SVal)
  | m (entries : List (String × SVal))

/-- Structured deserialization of one scalar, modelling how a
self-describing format's value (e.g. a `serde_json` value) meets the
helper's scalar field: matching shapes pass through, integers are
range-checked against the target width, and any other combination is a
serde `invalid_type` error. -/
def svalScalar (k : ScalarKind) (v : SVal) : Except Error FieldValue :=
  match k, v with
  | .sStr, .s str => .ok (.vStr str)
  | .sBool, .b bv => .ok (.vBool bv)
  | .sF32, .i n => .ok (.vFloat (toString n))
  | .sF64, .i n => .ok (.vFloat (toString n))
  | .sU8, .i n => if 0 ≤ n ∧ n ≤ 255 then .ok (.vInt n)
      else .error (.custom "invalid value: out of range integer")
  | .sU16, .i n => if 0 ≤ n ∧ n ≤ 65535 then .ok (.vInt n)
      else .error (.custom "invalid value: out of range integer")
  | .sU32, .i n => if 0 ≤ n ∧ n ≤ 4294967295 then .ok (.vInt n)
      else .error (.custom "invalid value: out of range integer")
  | .sU64, .i n => if 0 ≤ n ∧ n ≤ 18446744073709551615 then .ok (.vInt n)
      else .error (.custom "invalid value: out of range integer")
  | .sI8, .i n => if -128 ≤ n ∧ n ≤ 127 then .ok (.vInt n)
      else .error (.custom "invalid value: out of range integer")
  | .sI16, .i n => if -32768 ≤ n ∧ n ≤ 32767 then .ok (.vInt n)
      else .error (.custom "invalid value: out of range integer")
  | .sI32, .i n => if -2147483648 ≤ n ∧ n ≤ 2147483647 then .ok (.vInt n)
      else .error (.custom "invalid value: out of range integer")
  | .sI64, .i n => .ok (.vInt n)
  | _, .s _ => .error (.invalidType "a string" "a non-string scalar")
  | _, .i _ => .error (.invalidType "an integer" "a non-integer scalar")
  | _, .b _ => .error (.invalidType "a boolean" "a non-boolean scalar")
  | _, .arr _ => .error (.invalidType "a sequence" "a scalar")
  | _, .m _ => .error (.invalidType "a map" "a scalar")

/-- Structured element walk for a sequence field. -/
def seqElemsB (k : ScalarKind) : List SVal → Except Error (List FieldValue)
  | [] => .ok []
  | v :: rest =>
    match svalScalar k v with
    | .error e => .error e
    | .ok fv => (seqElemsB k rest).map (fun vs => fv :: vs)

mutual
/-- Structured ("Mode B") deserialization of one field value against its
shape, as the forwarding visitor of `impl_deserialize.rs` behaves:
  * scalars meet the self-describing value directly;
  * `visit_some` forwards the wrapped value to the helper unchanged;
  * a sequence deserializes its elements one by one;
  * a nested `#[recap(handle_deserialize)]` record forwards a map through
    `MapAccessDeserializer` into its own helper's derived `visit_map`
    (its regex is not consulted), while a *string* value still reaches
    that type's `visit_str`, which runs `from_captures` with the nested
    regex — both entry adapters share the helper binder. -/
def svalD (sh : FieldShape) (v : SVal) : Except Error FieldValue :=
  match sh with
  | .scalar k => svalScalar k v
  | .optional sh' =>
    match svalD sh' v with
    | .ok fv => .ok (.vOpt (some fv))
    | .error e => .error e
  | .seq k =>
    match v with
    | .arr elems => (seqElemsB k elems).map .vList
    | .s _ => .error (.invalidType "a string" "a sequence")
    | .i _ => .error (.invalidType "an integer" "a sequence")
    | .b _ => .error (.invalidType "a boolean" "a sequence")
    | .m _ => .error (.invalidType "a map" "a sequence")
  | .nested re sub =>
    match v with
    | .m entries =>
      match fillB sub (List.replicate sub.length none) entries with
      | .error e => .error e
      | .ok filled => (finalizeFields sub filled).map .vRecord
    | .s str => (fromCaptures re sub str).map .vRecord
    | .i _ => .error (.invalidType "an integer" "a map or string")
    | .b _ => .error (.invalidType "a boolean" "a map or string")
    | .arr _ => .error (.invalidType "a sequence" "a map or string")
termination_by (sizeOf sh, 0)
decreasing_by
  · apply Prod.Lex.left
    simp
  · apply Prod.Lex.left
    simp

/-- The same derived `visit_map` walk as `fillA`, driven by structured
entries instead of capture pairs: the matching, duplicate and
unknown-key rules are those of the shared `__DeserializeHelper`. -/
def fillB (fields : List FieldSpec) (filled : List (Option FieldValue)) :
    List (String × SVal) → Except Error (List (Option FieldValue))
  | [] => .ok filled
  | (k, v) :: rest =>
    match h : findField fields k with
    | none => fillB fields filled rest
    | some (i, f) =>
      if (filled.getD i none).isSome then .error (.duplicateField k)
      else
        match svalD f.shape v with
        | .error e => .error e
        | .ok fv => fillB fields (filled.set i (some fv)) rest
termination_by entries => (sizeOf fields, entries.length)
decreasing_by
  · apply Prod.Lex.right
    simp
  · apply Prod.Lex.left
    exact sizeOf_shape_lt_of_mem (findField_mem h)
  · apply Prod.Lex.right
    simp
end

/-- Mode-B binding of a whole structured map to a record target: the
derived `Deserialize` forwards the map access into the helper's derived
`visit_map` and then moves the helper's fields into the real struct. -/
def bindRecordB (fields : List FieldSpec) (entries : List (String × SVal)) :
    Except Error (List FieldValue) :=
  match fillB fields (List.replicate fields.length none) entries with
  | .error e => .error e
  | .ok filled => finalizeFields fields filled

/-! ### The `TryFrom<&str>` / `FromStr` generated for enums

`derive_recap` (recap-derive/src/lib.rs, `Regexes::EnumRegexes` arm)
emits, per variant in declaration order, one of three trial arms, and
after all of them `Err(Error::Custom("Uh Oh".to_string()))`:

  * named fields:
    `if let Some(caps) = RE_V.captures(&s) { return Ok(E::V {
       f: caps.name("f").unwrap().as_str().try_into().unwrap(), .. }) }`
  * one unnamed field:
    `if let Some(caps) = RE_V.captures(&s) {
       let inner = caps.get(1).unwrap().as_str();
       if let Ok(value) = inner.parse() { return Ok(E::V(value)) } }`
  * unit: `if RE_V.is_match(&s) { return Ok(E::V) }`
-/

/-- One named field of an enum variant: its identifier (used as the
capture-group name via `stringify!`) and the `TryFrom<&str>` conversion of
its Rust type — infallible (`some`) for `String`-like fields, and the
recap-derived `TryFrom` (which can fail, `none`) for nested recap types.
The generated code discards the error payload before `.unwrap()`, so
`Option` captures it faithfully. -/
structure NamedField where
  name : String
  tryInto : String → Option FieldValue

/-- The three shapes of variant arm the derive emits. -/
inductive VariantKind where
  | named (fields : List NamedField)
  | unnamed (parse : String → Option FieldValue)
  | unit

/-- One enum variant: its name, its `#[recap(regex = ..)]` pattern, and
its field shape. -/
structure VariantSpec where
  vname : String
  re : RegexModel
  kind : VariantKind

/-- Outcome of the generated `try_from`/`from_str`: a constructed
variant, the fallthrough `Err(Custom("Uh Oh"))`, or a process-aborting
panic from one of the `.unwrap()` calls. -/
inductive EnumResult where
  | ok (variant : String) (fields : List FieldValue)
  | errUhOh
  | panicked

/-- The field initialisers of a named-fields variant:
`caps.name(f).unwrap().as_str().try_into().unwrap()` for each declared
field — `none` (a panic) when the group did not participate or the
conversion failed. -/
def bindNamedFields (c : Caps) : List NamedField → Option (List FieldValue)
  | [] => some []
  | f :: fs =>
    match c.name f.name with
    | none => none
    | some raw =>
      match f.tryInto raw with
      | none => none
      | some v => (bindNamedFields c fs).map (fun vs => v :: vs)

/-- The generated `try_from(s)`: variants tried in declaration order. -/
def enumTryFrom (variants : List VariantSpec) (s : String) : EnumResult :=
  match variants with
  | [] => .errUhOh
  | v :: rest =>
    match v.kind with
    | .named fs =>
      match v.re.caps s with
      | none => enumTryFrom rest s
      | some c =>
        match bindNamedFields c fs with
        | none => .panicked
        | some vals => .ok v.vname vals
    | .unnamed parse =>
      match v.re.caps s with
      | none => enumTryFrom rest s
      | some c =>
        match c.group1 with
        | none => .panicked
        | some inner =>
          match parse inner with
          | some val => .ok v.vname [val]
          | none => enumTryFrom rest s
    | .unit => if v.re.isMatch s then .ok v.vname [] else enumTryFrom rest s

/-! ### Auxiliary predicates and concrete instances

The `RegexModel` instances below record the behavior of specific
patterns from the repository's tests and the spec's concrete scenarios on
the inputs the theorems use; each doc comment names the pattern whose
(externally defined) matching behavior it transcribes. -/

/-- A shape with no nested-record constructor anywhere: scalar, sequence,
or `Option` thereof. -/
def FieldShape.isFlat : FieldShape → Bool
  | .scalar _ => true
  | .seq _ => true
  | .optional sh => sh.isFlat
  | .nested _ _ => false

/-- Whether a variant's generated arm ends the trial loop on input `s`
(by returning or by panicking): named-fields and unit arms do so exactly
when their pattern matches; an unnamed arm does so when its pattern
matches, unless group 1 participated and the parse failed (in which case
the generated `if let Ok` falls through). -/
def claimsInput (v : VariantSpec) (s : String) : Bool :=
  match v.kind with
  | .named _ => v.re.isMatch s
  | .unit => v.re.isMatch s
  | .unnamed parse =>
    match v.re.caps s with
    | none => false
    | some c =>
      match c.group1 with
      | none => true
      | some inner => (parse inner).isSome

/-- Behavior of `(?P<foo>\S+)\s+(?P<bar>\S+)\s+(?P<baz>\S+)?` (the
pattern of the lib.rs test `deserializes_matching_captures_optional` and
of the spec's concrete scenario 2): on `"one two "`, `foo` and `bar`
participate and the optional `baz` does not; other inputs are not used by
the development and are mapped to no-match. -/
def optRe : RegexModel :=
  { names := [none, some "foo", some "bar", some "baz"],
    caps := fun s =>
      if s = "one two " then some { named := [("foo", "one"), ("bar", "two")] }
      else none }

/-- The `LogEntryOptional` target: `foo: String, bar: String,
baz: Option<String>`. -/
def optShape : List FieldSpec :=
  [.mk "foo" none (.scalar .sStr), .mk "bar" none (.scalar .sStr),
   .mk "baz" none (.optional (.scalar .sStr))]

/-- Behavior of `.+`: one unnamed group (the whole match), matching every
non-empty input (the inputs used here contain no newline). -/
def dotPlusRe : RegexModel :=
  { names := [none],
    caps := fun s => if s.isEmpty then none else some { named := [] } }

/-- The `LogEntry` target of the lib.rs tests: three required `String`
fields. -/
def logShape : List FieldSpec :=
  [.mk "foo" none (.scalar .sStr), .mk "bar" none (.scalar .sStr),
   .mk "baz" none (.scalar .sStr)]

/-- Behavior of `(?P<foo>\w+):(?P<bar>\d+)` (the `Inner` pattern of
`custom_deserialize_allows_nested_structs`): matches `"abc:123"` with
`foo = "abc"`, `bar = "123"`; does not match `"abc"` or `"zzz"` (no
colon-digit tail).  Inputs other than `"abc:123"` are mapped to
no-match. -/
def innerRe : RegexModel :=
  { names := [none, some "foo", some "bar"],
    caps := fun s =>
      if s = "abc:123" then some { named := [("foo", "abc"), ("bar", "123")] }
      else none }

/-- The `Inner` target: `foo: String, bar: u32`. -/
def innerFields : List FieldSpec :=
  [.mk "foo" none (.scalar .sStr), .mk "bar" none (.scalar .sU32)]

/-- Behavior of `(?P<first>[^ ]+)( (?P<second>[^ ]+))?` (the `Outer`
pattern of the same test): on the space-free input `"abc"`, `first`
captures the whole input and the optional `second` does not participate.
Groups: 0, `first`, one unnamed group, `second`. -/
def outerRe : RegexModel :=
  { names := [none, some "first", none, some "second"],
    caps := fun s =>
      if s = "abc" then some { named := [("first", "abc")] } else none }

/-- The `Outer` target: `first: Inner, second: Option<Inner>`, both bound
through Inner's own pattern. -/
def outerShape : List FieldSpec :=
  [.mk "first" none (.nested innerRe innerFields),
   .mk "second" none (.optional (.nested innerRe innerFields))]

/-- Behavior of the pattern
`((?P<FirstAttribute>\w+):)?(?P<second_rename>\d+):(?P<ThirdAttribute>\w+)`
(the `custom_deserialize_preserves_serde_attributes` test) on
`"42:non_default"`: the optional `FirstAttribute` does not participate.
Groups: 0, one unnamed group, then the three named ones. -/
def testRe : RegexModel :=
  { names := [none, none, some "FirstAttribute", some "second_rename",
      some "ThirdAttribute"],
    caps := fun s =>
      if s = "42:non_default" then
        some { named := [("second_rename", "42"), ("ThirdAttribute", "non_default")] }
      else none }

/-- The target of that test: `first_attribute: String` renamed (by
`rename_all = "PascalCase"`) to `FirstAttribute` with
`#[serde(default = "default_str")]`, `second_attribute: u32` renamed to
`second_rename`, `third_attribute: String` renamed to
`ThirdAttribute`. -/
def testShape : List FieldSpec :=
  [.mk "FirstAttribute" (some (.vStr "Some default")) (.scalar .sStr),
   .mk "second_rename" none (.scalar .sU32),
   .mk "ThirdAttribute" none (.scalar .sStr)]

/-- `inner.parse::<u32>()` as the unnamed-variant arm runs it, with the
error payload discarded. -/
def parseU32val (str : String) : Option FieldValue :=
  match parseUnsigned 4294967295 str with
  | .ok n => some (.vInt n)
  | .error _ => none

/-- Behavior of `(.+)`: group 1 captures the whole (non-empty,
newline-free) input. -/
def groupAnyRe : RegexModel :=
  { names := [none, none],
    caps := fun s =>
      if s.isEmpty then none else some { named := [], group1 := some s } }

/-- A two-variant enum in declaration order: `V1(u32)` with pattern
`(.+)` and unit variant `V2` with pattern `.+` — both patterns match any
non-empty input. -/
def demoVariants : List VariantSpec :=
  [{ vname := "V1", re := groupAnyRe, kind := .unnamed parseU32val },
   { vname := "V2", re := dotPlusRe, kind := .unit }]

/-- The recap-derived `TryFrom<&str>` of `Inner` as a named-field
conversion: `try_into` succeeds exactly when `from_captures` with Inner's
pattern does (the generated `.unwrap()` discards the error payload). -/
def innerTryInto (raw : String) : Option FieldValue :=
  match fromCaptures innerRe innerFields raw with
  | .ok vs => some (.vRecord vs)
  | .error _ => none

/-- Behavior of `(?P<x>.+)`: the named group `x` captures the whole
(non-empty, newline-free) input. -/
def namedAnyRe : RegexModel :=
  { names := [none, some "x"],
    caps := fun s =>
      if s.isEmpty then none
      else some { named := [("x", s)], group1 := some s } }

/-- A one-variant enum `V { x: Inner }` with pattern `(?P<x>.+)`: the
variant always matches, and the field conversion runs Inner's recap
`TryFrom`. -/
def panicEnum : List VariantSpec :=
  [{ vname := "V", re := namedAnyRe, kind := .named [⟨"x", innerTryInto⟩] }]

/-- Pointwise correspondence between a flat-string entry and a structured
entry as the two modes present them to the shared helper binder: the same
key, and — whenever the key matches a field of the target — equal
deserialization results at that field's shape. -/
def entryAgrees (fields : List FieldSpec) (ea : String × String)
    (eb : String × SVal) : Prop :=
  ea.1 = eb.1 ∧
    ∀ i f, findField fields ea.1 = some (i, f) →
      valD f.shape ea.1 ea.2 = svalD f.shape eb.2

/-! ## Supporting lemmas -/

theorem parseScalar_error_shape (k : ScalarKind) (field raw : String) (e : Error)
    (h : parseScalar k field raw = .error e) : ∃ d, e = .parseError d raw field := by
  cases k <;>
    simp only [parseScalar, coerceUnsigned, coerceSigned] at h <;>
    (try split at h) <;>
    simp_all <;>
    exact ⟨_, h.symm⟩

theorem seqElems_error_shape (k : ScalarKind) (field : String) :
    ∀ pieces : List String,
      (∃ vs, seqElems k field pieces = .ok vs) ∨
      (∃ d r, seqElems k field pieces = .error (.parseError d r field))
  | [] => .inl ⟨[], rfl⟩
  | piece :: rest => by
    rw [seqElems]
    match hp : parseScalar k field piece with
    | .error e =>
      obtain ⟨d, rfl⟩ := parseScalar_error_shape k field piece e hp
      exact .inr ⟨d, piece, rfl⟩
    | .ok v =>
      rcases seqElems_error_shape k field rest with ⟨vs, hvs⟩ | ⟨d, r, hd⟩
      · exact .inl ⟨v :: vs, by rw [hvs]; rfl⟩
      · exact .inr ⟨d, r, by rw [hd]; rfl⟩

/-- On nested-free shapes, `valD` either succeeds or fails with a
coercion error naming the field. -/
theorem valD_flat : ∀ (sh : FieldShape), sh.isFlat = true → ∀ field raw : String,
    (∃ v, valD sh field raw = .ok v) ∨
    (∃ d r, valD sh field raw = .error (.parseError d r field))
  | .scalar k, _, field, raw => by
    rw [valD]
    match hp : parseScalar k field raw with
    | .ok v => exact .inl ⟨v, rfl⟩
    | .error e =>
      obtain ⟨d, rfl⟩ := parseScalar_error_shape k field raw e hp
      exact .inr ⟨d, raw, rfl⟩
  | .optional sh', h, field, raw => by
    rw [FieldShape.isFlat] at h
    rcases valD_flat sh' h field raw with ⟨v, hv⟩ | ⟨d, r, hd⟩
    · exact .inl ⟨.vOpt (some v), by rw [valD, hv]⟩
    · exact .inr ⟨d, r, by rw [valD, hd]⟩
  | .seq k, _, field, raw => by
    rw [valD]
    rcases seqElems_error_shape k field (splitComma raw) with ⟨vs, hvs⟩ | ⟨d, r, hd⟩
    · exact .inl ⟨.vList vs, by rw [hvs]; rfl⟩
    · exact .inr ⟨d, r, by rw [hd]; rfl⟩
  | .nested re sub, h, _, _ => by rw [FieldShape.isFlat] at h; exact absurd h (by simp)
termination_by sh => sizeOf sh

theorem findField_get {fields : List FieldSpec} {k : String} {i : Nat}
    {f : FieldSpec} (h : findField fields k = some (i, f)) :
    fields[i]? = some f ∧ f.key = k := by
  induction fields generalizing i with
  | nil => simp [findField] at h
  | cons g gs ih =>
    rw [findField] at h
    by_cases hk : g.key = k
    · rw [if_pos hk] at h
      simp only [Option.some.injEq, Prod.mk.injEq] at h
      obtain ⟨rfl, rfl⟩ := h
      exact ⟨by simp, hk⟩
    · rw [if_neg hk] at h
      match hfind : findField gs k with
      | none => rw [hfind] at h; simp at h
      | some (j, f') =>
        rw [hfind] at h
        simp only [Option.map_some', Option.some.injEq, Prod.mk.injEq] at h
        obtain ⟨rfl, rfl⟩ := h
        simpa using ih (i := j) hfind

theorem capturePairs_keys_sublist (re : RegexModel) (c : Caps) :
    ((capturePairs re c).map Prod.fst).Sublist (re.names.filterMap id) := by
  rw [capturePairs]
  induction re.names with
  | nil => simp
  | cons a l ih =>
    match a with
    | none => simpa using ih
    | some n =>
      match hn : c.name n with
      | none => simpa [hn] using ih.cons n
      | some v => simpa [hn] using ih.cons₂ n

theorem capturePairs_keys_nodup {re : RegexModel} (c : Caps)
    (h : (re.names.filterMap id).Nodup) :
    ((capturePairs re c).map Prod.fst).Nodup :=
  h.sublist (capturePairs_keys_sublist re c)

theorem capturePairs_nil_of_no_names {re : RegexModel} (c : Caps)
    (h : re.names.filterMap id = []) : capturePairs re c = [] := by
  rw [capturePairs]
  have aux : ∀ l : List (Option String), l.filterMap id = [] →
      l.filterMap (fun maybeName =>
        maybeName.bind (fun n => (c.name n).map (fun v => (n, v)))) = [] := by
    intro l hl
    induction l with
    | nil => simp
    | cons a t ih =>
      match a with
      | none =>
        rw [List.filterMap_cons_none (by rfl)] at hl
        rw [List.filterMap_cons_none (by rfl)]
        exact ih hl
      | some n => simp at hl
  exact aux re.names h

/-- `finalizeFields` can only fail with a missing-value error. -/
theorem finalize_ok_or_missing :
    ∀ (fields : List FieldSpec) (filled : List (Option FieldValue)),
      (∃ out, finalizeFields fields filled = .ok out) ∨
      (∃ k, finalizeFields fields filled = .error (.missingValue k))
  | [], _ => .inl ⟨[], rfl⟩
  | f :: fs, filled => by
    rw [finalizeFields]
    match hh : filled.headD none with
    | some v =>
      rcases finalize_ok_or_missing fs filled.tail with ⟨out, ho⟩ | ⟨k, hk⟩
      · exact .inl ⟨v :: out, by rw [ho]; rfl⟩
      · exact .inr ⟨k, by rw [hk]; rfl⟩
    | none =>
      match hd : f.dflt with
      | some d =>
        rcases finalize_ok_or_missing fs filled.tail with ⟨out, ho⟩ | ⟨k, hk⟩
        · exact .inl ⟨d :: out, by rw [ho]; rfl⟩
        · exact .inr ⟨k, by rw [hk]; rfl⟩
      | none =>
        match hopt : f.shape.isOptional with
        | true =>
          rcases finalize_ok_or_missing fs filled.tail with ⟨out, ho⟩ | ⟨k, hk⟩
          · exact .inl ⟨.vOpt none :: out, by simp [ho, Except.map]⟩
          · exact .inr ⟨k, by simp [hk, Except.map]⟩
        | false => exact .inr ⟨f.key, by simp⟩

theorem getD_set_ne {l : List (Option FieldValue)} {i j : Nat}
    {a : Option FieldValue} (h : i ≠ j) :
    (l.set i a).getD j none = l.getD j none := by
  rw [List.getD_eq_getElem?_getD, List.getD_eq_getElem?_getD,
    List.getElem?_set_ne h]

/-- The `visit_map` walk over flat fields is exempt from duplicate-field
errors when the entry keys are distinct and no already-filled slot's key
reappears; every failure is then a coercion error. -/
theorem fillA_flat (fields : List FieldSpec)
    (hflat : ∀ f ∈ fields, f.shape.isFlat = true) :
    ∀ (entries : List (String × String)) (filled : List (Option FieldValue)),
      (entries.map Prod.fst).Nodup →
      (∀ i f, fields[i]? = some f → (filled.getD i none).isSome = true →
        f.key ∉ entries.map Prod.fst) →
      (∃ out, fillA fields filled entries = .ok out) ∨
      (∃ d r g, fillA fields filled entries = .error (.parseError d r g)) := by
  intro entries
  induction entries with
  | nil =>
    intro filled _ _
    exact .inl ⟨filled, by rw [fillA]⟩
  | cons e rest ih =>
    obtain ⟨k, v⟩ := e
    intro filled hnd hinv
    have hndc : (k :: rest.map Prod.fst).Nodup := by simpa using hnd
    have hk_rest : k ∉ rest.map Prod.fst := (List.nodup_cons.mp hndc).1
    have hnd_rest : (rest.map Prod.fst).Nodup := (List.nodup_cons.mp hndc).2
    rw [fillA]
    split
    next hff =>
      exact ih filled (by simpa using hnd_rest)
        (fun i f hget hsome hmem =>
          hinv i f hget hsome (List.mem_cons_of_mem _ hmem))
    next i f hff =>
      obtain ⟨hget, hkey⟩ := findField_get hff
      have hslot : (filled.getD i none).isSome = false := by
        cases hs : (filled.getD i none).isSome
        · rfl
        · exact absurd (show f.key ∈ List.map Prod.fst ((k, v) :: rest) by
            rw [hkey]; simp) (hinv i f hget hs)
      rw [hslot]
      simp only [Bool.false_eq_true, if_false]
      split
      next e' hv =>
        rcases valD_flat f.shape (hflat f (findField_mem hff)) k v with
          ⟨v', hv'⟩ | ⟨d, r, hd⟩
        · rw [hv] at hv'; exact absurd hv' (by simp)
        · rw [hv] at hd
          obtain rfl := Except.error.inj hd
          exact .inr ⟨d, r, k, rfl⟩
      next fv hv =>
        apply ih (filled.set i (some fv))
        · simpa using hnd_rest
        · intro j g hg hs
          by_cases hij : i = j
          · subst hij
            have hgf : g = f := by rw [hget] at hg; exact (Option.some.inj hg).symm
            subst hgf
            rw [hkey]
            simpa using hk_rest
          · rw [getD_set_ne hij] at hs
            exact fun hmem => hinv j g hg hs (List.mem_cons_of_mem _ hmem)

/-- After a successful `visit_map` walk, a slot can be filled only if its
field's key occurred among the processed entries (or was filled before the
walk started). -/
theorem fillA_some_key (fields : List FieldSpec) :
    ∀ (entries : List (String × String)) (filled out : List (Option FieldValue)),
      fillA fields filled entries = .ok out →
      ∀ i f, fields[i]? = some f → (out.getD i none).isSome = true →
        (filled.getD i none).isSome = true ∨ f.key ∈ entries.map Prod.fst := by
  intro entries
  induction entries with
  | nil =>
    intro filled out h i f _ hsome
    rw [fillA] at h
    obtain rfl : filled = out := by simpa using h
    exact .inl hsome
  | cons e rest ih =>
    obtain ⟨k, v⟩ := e
    intro filled out h i f hget hsome
    rw [fillA] at h
    split at h
    next hff =>
      rcases ih filled out h i f hget hsome with hl | hr
      · exact .inl hl
      · exact .inr (List.mem_cons_of_mem _ hr)
    next j g hff =>
      obtain ⟨hgetj, hkeyj⟩ := findField_get hff
      split at h
      · simp at h
      · split at h
        · simp at h
        next fv hv =>
          rcases ih (filled.set j (some fv)) out h i f hget hsome with hl | hr
          · by_cases hij : j = i
            · subst hij
              have hfg : g = f := by rw [hgetj] at hget; exact Option.some.inj hget
              subst hfg
              exact .inr (by rw [hkeyj]; simp)
            · rw [getD_set_ne hij] at hl
              exact .inl hl
          · exact .inr (List.mem_cons_of_mem _ hr)

theorem except_map_ok {α β ε : Type} {f : α → β} {x : Except ε α}
    {b : β} (h : Except.map f x = .ok b) : ∃ a, x = .ok a ∧ f a = b := by
  cases x with
  | error e => simp [Except.map] at h
  | ok a => exact ⟨a, rfl, by simpa [Except.map] using h⟩

/-- If the declaration-order resolution succeeded, every required field
without a default had a filled slot. -/
theorem finalize_ok_implies :
    ∀ (fields : List FieldSpec) (filled : List (Option FieldValue))
      (out : List FieldValue),
      finalizeFields fields filled = .ok out →
      ∀ i f, fields[i]? = some f → f.dflt = none → f.shape.isOptional = false →
        (filled.getD i none).isSome = true := by
  intro fields
  induction fields with
  | nil => intro filled out h i f hget; simp at hget
  | cons g gs ih =>
    intro filled out h i f hget hdflt hopt
    rw [finalizeFields] at h
    have step :
        (filled.headD none).isSome = true ∨
        ((∃ out', finalizeFields gs filled.tail = .ok out') ∧
          ¬(g.dflt = none ∧ g.shape.isOptional = false)) := by
      split at h
      next v hh =>
        exact .inl (by rw [hh]; rfl)
      next hh =>
        split at h
        next d hd =>
          obtain ⟨out', ho, -⟩ := except_map_ok h
          exact .inr ⟨⟨out', ho⟩, by simp [hd]⟩
        next hd =>
          split at h
          · obtain ⟨out', ho, -⟩ := except_map_ok h
            exact .inr ⟨⟨out', ho⟩, by simp_all⟩
          · simp at h
    have tail_ok : ∀ j f', gs[j]? = some f' → f'.dflt = none →
        f'.shape.isOptional = false → (filled.tail.getD j none).isSome = true := by
      intro j f' hj hd' ho'
      have hok : ∃ out', finalizeFields gs filled.tail = .ok out' := by
        rcases step with hl | ⟨hok, -⟩
        · split at h
          next v hh =>
            obtain ⟨out', ho, -⟩ := except_map_ok h
            exact ⟨out', ho⟩
          next hh => rw [hh] at hl; simp at hl
        · exact hok
      obtain ⟨out', ho⟩ := hok
      exact ih filled.tail out' ho j f' hj hd' ho'
    match i with
    | 0 =>
      have hfg : g = f := by simpa using hget
      subst hfg
      rcases step with hl | ⟨-, hnot⟩
      · cases filled with
        | nil => simp at hl
        | cons x t => simpa [List.getD] using hl
      · exact absurd ⟨hdflt, hopt⟩ hnot
    | Nat.succ j =>
      have hj : gs[j]? = some f := by simpa using hget
      have := tail_ok j f hj hdflt hopt
      cases filled with
      | nil => simpa using this
      | cons x t => simpa [List.getD] using this

theorem seqElems_sStr (field : String) :
    ∀ pieces : List String, seqElems .sStr field pieces = .ok (pieces.map .vStr)
  | [] => rfl
  | piece :: rest => by
    rw [seqElems, parseScalar, seqElems_sStr field rest]
    rfl

/-! ## Claims -/

/-- C2 (counterexample): expanding the empty raw string does *not* yield
an empty sequence — `Val::deserialize_seq` splits with `self.1.split(',')`
and `"".split(',')` is the one-element iterator `[""]`, so a `Vec<String>`
field captured as `""` binds to `vec![""]`, not `vec![]`; there is no
special case for the empty string. -/
theorem claim_C2_cex :
    valD (.seq .sStr) "f" "" = .ok (.vList [.vStr ""]) ∧
    FieldValue.vList [.vStr ""] ≠ .vList [] := by
  constructor
  · simp [valD, splitComma, splitCommaAux, seqElems, parseScalar, Except.map]
  · simp

/-- C2 (amended): for every field name, expanding the sequence captured
from the empty raw string yields the one-element sequence containing the
empty string (the naive split behavior; nothing is special-cased), and
expanding `"a,b,c"` yields `["a","b","c"]` in order. -/
theorem claim_C2 (field : String) :
    valD (.seq .sStr) field "" = .ok (.vList [.vStr ""]) ∧
    valD (.seq .sStr) field "a,b,c" =
      .ok (.vList [.vStr "a", .vStr "b", .vStr "c"]) := by
  constructor <;>
    simp [valD, splitComma, splitCommaAux, seqElems, parseScalar, Except.map]

/-- C2 (witness): the amended statement at the field name `"items"`. -/
theorem claim_C2_witness :
    valD (.seq .sStr) "items" "" = .ok (.vList [.vStr ""]) ∧
    valD (.seq .sStr) "items" "a,b,c" =
      .ok (.vList [.vStr "a", .vStr "b", .vStr "c"]) :=
  claim_C2 "items"

/-- C7 (counterexample): a field whose values are separated by `";"`
still has its raw string split on the comma — `"a;b"` expands to the
single element `"a;b"`, not `["a","b"]`; `Val::deserialize_seq` consults
no per-field delimiter configuration (none exists in `FieldSpec` or
anywhere in the crate), so no per-field delimiter can take precedence
over the comma. -/
theorem claim_C7_cex :
    valD (.seq .sStr) "ids" "a;b" = .ok (.vList [.vStr "a;b"]) ∧
    FieldValue.vList [.vStr "a;b"] ≠ .vList [.vStr "a", .vStr "b"] := by
  constructor
  · simp [valD, splitComma, splitCommaAux, seqElems, parseScalar, Except.map]
  · simp

/-- C7 (amended): sequence expansion always splits the captured raw
string on the literal comma, for every field; there is no per-field
delimiter declaration, so no override of the comma default exists. -/
theorem claim_C7 (field raw : String) :
    valD (.seq .sStr) field raw = .ok (.vList ((splitComma raw).map .vStr)) := by
  rw [valD, seqElems_sStr]
  rfl

/-- C7 (witness): the amended statement at a concrete field and raw
string containing a would-be custom delimiter. -/
theorem claim_C7_witness :
    valD (.seq .sStr) "ids" "x;y,z" =
      .ok (.vList ((splitComma "x;y,z").map .vStr)) :=
  claim_C7 "ids" "x;y,z"

/-- C6 (counterexample): the coercion error does not carry the target
type: coercing `"abc"` to `u32` and to `i64` for the same field produces
*identical* error values (message
`invalid digit found in string while parsing value 'abc' provided by f`),
although the target types differ — so the error cannot determine, and
hence does not carry, the target type. -/
theorem claim_C6_cex :
    parseScalar .sU32 "f" "abc" =
      .error (.parseError "invalid digit found in string" "abc" "f") ∧
    parseScalar .sI64 "f" "abc" =
      .error (.parseError "invalid digit found in string" "abc" "f") ∧
    ScalarKind.sU32 ≠ ScalarKind.sI64 := by
  refine ⟨by rfl, by rfl, by decide⟩

/-- C6 (amended): for every scalar field whose captured raw string fails
to parse under the target type's textual grammar, binding fails with a
coercion error that carries the originating field name, the raw text,
and the underlying parse diagnostic (but not the target type). -/
theorem claim_C6 (k : ScalarKind) (field raw : String) (e : Error)
    (h : valD (.scalar k) field raw = .error e) :
    ∃ d, e = .parseError d raw field := by
  rw [valD] at h
  exact parseScalar_error_shape k field raw e h

/-- C6 (witness): the amended statement at the boolean field `"flag"`
with raw text `"yes"`. -/
theorem claim_C6_witness :
    valD (.scalar .sBool) "flag" "yes" =
      .error (.parseError "provided string was not `true` or `false`" "yes" "flag") ∧
    ∃ d, (Error.parseError "provided string was not `true` or `false`" "yes" "flag") =
      .parseError d "yes" "flag" := by
  have h : valD (.scalar .sBool) "flag" "yes" =
      .error (.parseError "provided string was not `true` or `false`" "yes" "flag") := by
    rw [valD]
    rfl
  exact ⟨h, claim_C6 .sBool "flag" "yes" _ h⟩

/-- C10: for an optional field whose capture participates,
`Val::deserialize_option` runs `visitor.visit_some(self)` — the captured
value is always deserialized as the wrapped type: the result is exactly
the wrapped deserialization mapped into `Some`, it can never produce the
absent value from a present capture, and a failing scalar parse
surfaces as a coercion error carrying the field name rather than
yielding `None`. -/
theorem claim_C10 :
    (∀ (sh : FieldShape) (field raw : String),
      valD (.optional sh) field raw =
        (valD sh field raw).map (fun v => .vOpt (some v))) ∧
    (∀ (sh : FieldShape) (field raw : String),
      valD (.optional sh) field raw ≠ .ok (.vOpt none)) ∧
    (∀ (k : ScalarKind) (field raw : String) (e : Error),
      valD (.optional (.scalar k)) field raw = .error e →
        ∃ d, e = .parseError d raw field) := by
  have hmap : ∀ (sh : FieldShape) (field raw : String),
      valD (.optional sh) field raw =
        (valD sh field raw).map (fun v => .vOpt (some v)) := by
    intro sh field raw
    rw [valD]
    split
    next v hv => rw [hv]; rfl
    next e hv => rw [hv]; rfl
  refine ⟨hmap, ?_, ?_⟩
  · intro sh field raw h
    rw [hmap] at h
    obtain ⟨v, -, hv⟩ := except_map_ok h
    simp at hv
  · intro k field raw e h
    rw [hmap] at h
    cases hv : valD (.scalar k) field raw with
    | ok v => rw [hv] at h; simp [Except.map] at h
    | error e' =>
      rw [hv] at h
      simp only [Except.map] at h
      obtain rfl := Except.error.inj h
      rw [valD] at hv
      exact parseScalar_error_shape k field raw e' hv

/-- C10 (witness): the optional `u32` field `"baz"` captured as the
unparsable `"xy"` fails with the coercion error naming the field, and
never binds to `None`. -/
theorem claim_C10_witness :
    valD (.optional (.scalar .sU32)) "baz" "xy" =
      (valD (.scalar .sU32) "baz" "xy").map (fun v => .vOpt (some v)) ∧
    valD (.optional (.scalar .sU32)) "baz" "xy" ≠ .ok (.vOpt none) ∧
    ∃ d, (Error.parseError "invalid digit found in string" "xy" "baz") =
      .parseError d "xy" "baz" :=
  ⟨claim_C10.1 (.scalar .sU32) "baz" "xy",
   claim_C10.2.1 (.scalar .sU32) "baz" "xy",
   claim_C10.2.2 .sU32 "baz" "xy" _ (by rw [claim_C10.1, valD]; rfl)⟩

theorem getD_replicate_none (n i : Nat) :
    (List.replicate n (none : Option FieldValue)).getD i none = none := by
  rw [List.getD_eq_getElem?_getD, List.getElem?_replicate]
  split <;> rfl

/-- C3: a named group that does not participate in the match is omitted
from the capture pairs rather than emitted with an empty string: every
pair handed to `from_iter` reproduces a participating group
(`caps.name(n) = Some v`), a name whose group did not participate never
occurs among the keys, and — concretely — the pattern
`(?P<foo>\S+)\s+(?P<bar>\S+)\s+(?P<baz>\S+)?` against `"one two "` binds
`{foo: "one", bar: "two", baz: absent}`. -/
theorem claim_C3 :
    (∀ (re : RegexModel) (c : Caps) (n v : String),
      (n, v) ∈ capturePairs re c → c.name n = some v) ∧
    (∀ (re : RegexModel) (c : Caps) (n : String),
      c.name n = none → n ∉ (capturePairs re c).map Prod.fst) ∧
    fromCaptures optRe optShape "one two " =
      .ok [.vStr "one", .vStr "two", .vOpt none] := by
  have hpart1 : ∀ (re : RegexModel) (c : Caps) (n v : String),
      (n, v) ∈ capturePairs re c → c.name n = some v := by
    intro re c n v h
    rw [capturePairs] at h
    obtain ⟨a, -, heq⟩ := List.mem_filterMap.mp h
    match a with
    | none => simp at heq
    | some n' =>
      have heq' : (c.name n').map (fun v => (n', v)) = some (n, v) := heq
      obtain ⟨w, hw, hnv⟩ := Option.map_eq_some'.mp heq'
      simp only [Prod.mk.injEq] at hnv
      obtain ⟨rfl, rfl⟩ := hnv
      exact hw
  refine ⟨hpart1, ?_, ?_⟩
  · intro re c n hnone hmem
    obtain ⟨p, hp, hfst⟩ := List.mem_map.mp hmem
    obtain ⟨n', v⟩ := p
    cases hfst
    have := hpart1 re c n' v hp
    rw [hnone] at this
    exact Option.noConfusion this
  · simp [fromCaptures, optRe, optShape, bindRecordA, capturePairs, Caps.name,
      List.lookup, fillA, findField, FieldSpec.key, valD, parseScalar,
      finalizeFields, FieldSpec.dflt, FieldSpec.shape, FieldShape.isOptional,
      Except.map]

/-- C3 (witness): the two quantified parts at the capture set of that
concrete match — `("foo", "one")` comes from a participating group, and
`"baz"` (non-participating) is absent from the keys. -/
theorem claim_C3_witness :
    Caps.name { named := [("foo", "one"), ("bar", "two")] } "foo" = some "one" ∧
    "baz" ∉ (capturePairs optRe
      { named := [("foo", "one"), ("bar", "two")] }).map Prod.fst :=
  ⟨claim_C3.1 optRe { named := [("foo", "one"), ("bar", "two")] } "foo" "one"
      (by simp [capturePairs, optRe, Caps.name, List.lookup]),
   claim_C3.2.1 optRe { named := [("foo", "one"), ("bar", "two")] } "baz" rfl⟩

/-- C5: a successful match whose pattern declares no named groups yields
an empty capture set, so a record with a leading required field (no
default, not `Option`) fails with `MissingField` for it; and in general,
whenever the map walk succeeds but some required, defaultless,
non-optional field's key was never captured, binding fails with a
`MissingField` error. -/
theorem claim_C5 :
    (∀ (re : RegexModel) (s : String) (c : Caps) (f : FieldSpec)
      (rest : List FieldSpec),
      re.caps s = some c → re.names.filterMap id = [] →
      f.dflt = none → f.shape.isOptional = false →
      fromCaptures re (f :: rest) s = .error (.missingValue f.key)) ∧
    (∀ (fields : List FieldSpec) (entries : List (String × String)),
      (∃ f ∈ fields, f.dflt = none ∧ f.shape.isOptional = false ∧
        f.key ∉ entries.map Prod.fst) →
      (∃ filled, fillA fields (List.replicate fields.length none) entries =
        .ok filled) →
      ∃ k, bindRecordA fields entries = .error (.missingValue k)) := by
  constructor
  · intro re s c f rest hcaps hnames hdflt hopt
    have hpairs := capturePairs_nil_of_no_names c hnames
    simp only [fromCaptures, hcaps, hpairs, bindRecordA]
    rw [fillA]
    simp only [List.length_cons, List.replicate_succ]
    rw [finalizeFields]
    simp [hdflt, hopt]
  · intro fields entries ⟨f, hf, hdflt, hopt, hkey⟩ ⟨filled, hfill⟩
    rcases finalize_ok_or_missing fields filled with ⟨out, hout⟩ | ⟨k, hk⟩
    · exfalso
      obtain ⟨i, hi⟩ := List.mem_iff_getElem?.mp hf
      have hsome := finalize_ok_implies fields filled out hout i f hi hdflt hopt
      rcases fillA_some_key fields entries _ filled hfill i f hi hsome with hl | hr
      · rw [getD_replicate_none] at hl
        simp at hl
      · exact hkey hr
    · exact ⟨k, by simp only [bindRecordA, hfill, hk]⟩

/-- C5 (witness): the pattern `.+` (no named groups) against
`"one two three"` bound to the three-field `LogEntry` record fails with
`missing value for field foo`; and the general part at `logShape` with
only `bar` captured. -/
theorem claim_C5_witness :
    fromCaptures dotPlusRe logShape "one two three" =
      .error (.missingValue "foo") ∧
    ∃ k, bindRecordA logShape [("bar", "two")] = .error (.missingValue k) :=
  ⟨claim_C5.1 dotPlusRe "one two three" { named := [] }
      (.mk "foo" none (.scalar .sStr))
      [.mk "bar" none (.scalar .sStr), .mk "baz" none (.scalar .sStr)]
      rfl rfl rfl rfl,
   claim_C5.2 logShape [("bar", "two")]
      ⟨.mk "foo" none (.scalar .sStr), by simp [logShape], rfl, rfl,
        by simp [FieldSpec.key]⟩
      ⟨[none, some (.vStr "two"), none], by
        simp [logShape, fillA, findField, FieldSpec.key, valD, parseScalar,
          FieldSpec.shape]⟩⟩

/-- C1 (counterexample): with a nested recap-bound field, `from_captures`
can fail with the NoMatch error even though the pattern matches the
input: the `Outer` pattern `(?P<first>[^ ]+)( (?P<second>[^ ]+))?`
matches `"abc"`, but binding the captured `first = "abc"` re-runs
`from_captures` with `Inner`'s pattern `(?P<foo>\w+):(?P<bar>\d+)`, which
does not match `"abc"`; the inner
`Custom("No captures resolved in string 'abc'")` error propagates
unchanged (the `serde::de::Error::custom` re-wrap keeps the message), so
the overall result is exactly the NoMatch error for `"abc"`. -/
theorem claim_C1_cex :
    outerRe.isMatch "abc" = true ∧
    fromCaptures outerRe outerShape "abc" = .error (.noMatch "abc") := by
  constructor
  · rfl
  · have h3 : valD (.nested innerRe innerFields) "first" "abc" =
        .error (.noMatch "abc") := by
      rw [valD]
      rfl
    have h4 : fillA outerShape [none, none] [("first", "abc")] =
        .error (.noMatch "abc") := by
      rw [fillA]
      split
      next hff =>
        exact absurd hff (by simp [findField, outerShape, FieldSpec.key])
      next i f hff =>
        have h5 : findField outerShape "first" =
            some (0, FieldSpec.mk "first" none (.nested innerRe innerFields)) :=
          rfl
        rw [h5] at hff
        injection hff with h6
        obtain ⟨h7, h8⟩ := Prod.mk.inj h6
        subst h7
        subst h8
        rw [show (FieldSpec.mk "first" none
          (.nested innerRe innerFields)).shape = .nested innerRe innerFields
          from rfl]
        rw [h3]
        rfl
    show bindRecordA outerShape [("first", "abc")] = .error (.noMatch "abc")
    rw [bindRecordA]
    rw [show (List.replicate outerShape.length (none : Option FieldValue)) =
      [none, none] from rfl]
    rw [h4]

/-- C1 (amended): `from_captures` fails with `NoMatch(s)` — and exactly
that — whenever the pattern does not match `s`; and when the pattern does
match, for a target whose fields are all nested-free (scalar, sequence,
or `Option` thereof) and a pattern with distinct group names, the result
is success, a `MissingField` error, or a `CoercionFailure` error — never
`NoMatch`.  (With a nested recap-bound field an inner pattern mismatch
propagates as a NoMatch error naming the nested raw string; see the
counterexample.) -/
theorem claim_C1 :
    (∀ (re : RegexModel) (fields : List FieldSpec) (s : String),
      re.caps s = none → fromCaptures re fields s = .error (.noMatch s)) ∧
    (∀ (re : RegexModel) (fields : List FieldSpec) (s : String) (c : Caps),
      re.caps s = some c →
      (∀ f ∈ fields, f.shape.isFlat = true) →
      (re.names.filterMap id).Nodup →
      (∃ out, fromCaptures re fields s = .ok out) ∨
      (∃ k, fromCaptures re fields s = .error (.missingValue k)) ∨
      (∃ d r g, fromCaptures re fields s = .error (.parseError d r g))) := by
  constructor
  · intro re fields s h
    simp [fromCaptures, h]
  · intro re fields s c hcaps hflat hnd
    have hinv : ∀ i f, fields[i]? = some f →
        ((List.replicate fields.length (none : Option FieldValue)).getD i
          none).isSome = true →
        f.key ∉ (capturePairs re c).map Prod.fst := by
      intro i f _ hs
      rw [getD_replicate_none] at hs
      simp at hs
    rcases fillA_flat fields hflat (capturePairs re c) _
        (capturePairs_keys_nodup c hnd) hinv with ⟨out, hout⟩ | ⟨d, r, g, herr⟩
    · rcases finalize_ok_or_missing fields out with ⟨out2, h2⟩ | ⟨k, hk⟩
      · exact .inl ⟨out2, by simp only [fromCaptures, hcaps, bindRecordA, hout, h2]⟩
      · exact .inr (.inl ⟨k, by simp only [fromCaptures, hcaps, bindRecordA, hout, hk]⟩)
    · exact .inr (.inr ⟨d, r, g,
        by simp only [fromCaptures, hcaps, bindRecordA, herr]⟩)

/-- C1 (witness): both parts at concrete pairs — `optRe` does not match
`"zzz"` (so binding fails with exactly `NoMatch("zzz")`), and on the
matching pair from the optional-capture test the result is in the
allowed set. -/
theorem claim_C1_witness :
    fromCaptures optRe optShape "zzz" = .error (.noMatch "zzz") ∧
    ((∃ out, fromCaptures optRe optShape "one two " = .ok out) ∨
     (∃ k, fromCaptures optRe optShape "one two " =
        .error (.missingValue k)) ∨
     (∃ d r g, fromCaptures optRe optShape "one two " =
        .error (.parseError d r g))) :=
  ⟨claim_C1.1 optRe optShape "zzz" rfl,
   claim_C1.2 optRe optShape "one two " { named := [("foo", "one"), ("bar", "two")] }
     rfl
     (by simp [optShape, FieldSpec.shape, FieldShape.isFlat])
     (by decide)⟩

theorem enumTryFrom_skip (s : String) (u : VariantSpec)
    (rest : List VariantSpec) (hu : claimsInput u s = false) :
    enumTryFrom (u :: rest) s = enumTryFrom rest s := by
  rw [enumTryFrom]
  cases hk : u.kind with
  | named fs =>
    have hcaps : u.re.caps s = none := by
      simp only [claimsInput, hk, RegexModel.isMatch] at hu
      exact Option.not_isSome_iff_eq_none.mp (by simp [hu])
    simp [hk, hcaps]
  | unnamed p =>
    cases hc : u.re.caps s with
    | none => simp [hk, hc]
    | some c =>
      simp only [claimsInput, hk, hc] at hu
      cases hg : c.group1 with
      | none =>
        rw [hg] at hu
        exact absurd (show true = false from hu) (by simp)
      | some inner =>
        rw [hg] at hu
        have hu' : (p inner).isSome = false := hu
        have hp : p inner = none := by
          cases hpi : p inner
          · rfl
          · rw [hpi] at hu'; simp at hu'
        simp [hk, hc, hg, hp]
  | unit =>
    have hm : u.re.isMatch s = false := by simpa [claimsInput, hk] using hu
    simp [hk, hm]

theorem enumTryFrom_commit (s : String) (v : VariantSpec)
    (rest : List VariantSpec) (hv : claimsInput v s = true) :
    enumTryFrom (v :: rest) s = enumTryFrom [v] s := by
  cases hk : v.kind with
  | named fs =>
    obtain ⟨c, hc⟩ : ∃ c, v.re.caps s = some c := by
      simp only [claimsInput, hk, RegexModel.isMatch] at hv
      exact Option.isSome_iff_exists.mp hv
    simp [enumTryFrom, hk, hc]
  | unnamed p =>
    cases hc : v.re.caps s with
    | none => simp [claimsInput, hk, hc] at hv
    | some c =>
      simp only [claimsInput, hk, hc] at hv
      cases hg : c.group1 with
      | none => simp [enumTryFrom, hk, hc, hg]
      | some inner =>
        rw [hg] at hv
        have hv' : (p inner).isSome = true := hv
        obtain ⟨val, hval⟩ := Option.isSome_iff_exists.mp hv'
        simp [enumTryFrom, hk, hc, hg, hval]
  | unit =>
    have hm : v.re.isMatch s = true := by simpa [claimsInput, hk] using hv
    simp [enumTryFrom, hk, hm]

/-- C4 (counterexample): order is not decisive once binding is taken into
account — for the enum `[V1(u32) ← "(.+)", V2 ← ".+"]` on input `"abc"`,
`V1`'s pattern matches (group 1 captures `"abc"`), the `u32` parse of
`"abc"` fails, and the generated `if let Ok` *falls through to `V2`*
instead of propagating the failure: the result is `V2`, not an error. -/
theorem claim_C4_cex :
    groupAnyRe.caps "abc" = some { named := [], group1 := some "abc" } ∧
    parseU32val "abc" = none ∧
    enumTryFrom demoVariants "abc" = .ok "V2" [] :=
  ⟨rfl, rfl, rfl⟩

/-- C4 (amended): variants are tried in declaration order and a prefix of
non-claiming variants is skipped; the first variant that claims the input
decides the outcome regardless of later variants.  A named-fields or unit
variant claims the input exactly when its pattern matches, and a failed
named-field conversion *panics* (it does not propagate as an error); a
unnamed (newtype) variant whose capture parses unsuccessfully does *not*
claim the input — the trial falls through to the later variants. -/
theorem claim_C4 :
    (∀ (s : String) (pre post : List VariantSpec),
      (∀ u ∈ pre, claimsInput u s = false) →
      enumTryFrom (pre ++ post) s = enumTryFrom post s) ∧
    (∀ (s : String) (v : VariantSpec) (rest : List VariantSpec),
      claimsInput v s = true →
      enumTryFrom (v :: rest) s = enumTryFrom [v] s) ∧
    (∀ (s : String) (v : VariantSpec) (rest : List VariantSpec)
      (c : Caps) (fs : List NamedField),
      v.kind = .named fs → v.re.caps s = some c → bindNamedFields c fs = none →
      enumTryFrom (v :: rest) s = .panicked) ∧
    (∀ (s : String) (v : VariantSpec) (rest : List VariantSpec)
      (c : Caps) (p : String → Option FieldValue) (inner : String),
      v.kind = .unnamed p → v.re.caps s = some c → c.group1 = some inner →
      p inner = none → enumTryFrom (v :: rest) s = enumTryFrom rest s) := by
  refine ⟨?_, enumTryFrom_commit, ?_, ?_⟩
  · intro s pre post h
    induction pre with
    | nil => rfl
    | cons u us ih =>
      rw [List.cons_append,
        enumTryFrom_skip s u (us ++ post) (h u (List.mem_cons_self _ _))]
      exact ih (fun w hw => h w (List.mem_cons_of_mem _ hw))
  · intro s v rest c fs hk hc hbind
    simp [enumTryFrom, hk, hc, hbind]
  · intro s v rest c p inner hk hc hg hp
    simp [enumTryFrom, hk, hc, hg, hp]

/-- C4 (witness): the amended parts at the concrete two-variant enum —
`V1` matches `"abc"` but its parse fails, so the trial moves on to the
rest, and the unit variant `V2` (which claims the input) decides. -/
theorem claim_C4_witness :
    enumTryFrom demoVariants "abc" =
      enumTryFrom [{ vname := "V2", re := dotPlusRe, kind := .unit }] "abc" ∧
    enumTryFrom [{ vname := "V2", re := dotPlusRe, kind := .unit }] "abc" =
      .ok "V2" [] :=
  ⟨claim_C4.2.2.2 "abc" { vname := "V1", re := groupAnyRe, kind := .unnamed parseU32val }
      [{ vname := "V2", re := dotPlusRe, kind := .unit }]
      { named := [], group1 := some "abc" } parseU32val "abc" rfl rfl rfl rfl,
   rfl⟩

/-- C8: the generated enum binding *can* panic — for the one-variant enum
`V { x: Inner }` with pattern `(?P<x>.+)` (Inner a recap type with
pattern `(?P<foo>\w+):(?P<bar>\d+)`), the input `"zzz"` matches `V`'s
pattern, the captured `x = "zzz"` fails Inner's `TryFrom<&str>`
conversion, and the generated
`caps.name("x").unwrap().as_str().try_into().unwrap()` aborts the process
instead of returning an error value. -/
theorem claim_C8 :
    namedAnyRe.isMatch "zzz" = true ∧
    innerTryInto "zzz" = none ∧
    enumTryFrom panicEnum "zzz" = .panicked :=
  ⟨rfl, rfl, rfl⟩

/-- C9: both construction modes run the same derived helper binder, so
they honor identical field-matching rules (serde-renamed keys, duplicate
detection, unknown-key skipping, `#[serde(default)]` suppliers,
declaration-order missing-field resolution): whenever a flat-string entry
list and a structured entry list present the same keys in the same order
with values that deserialize equally at the matched field's shape, the
two modes produce the same record (or the same error). -/
theorem claim_C9 (fields : List FieldSpec) :
    ∀ (entriesA : List (String × String)) (entriesB : List (String × SVal)),
      List.Forall₂ (entryAgrees fields) entriesA entriesB →
      bindRecordA fields entriesA = bindRecordB fields entriesB := by
  have hfill : ∀ (entriesA : List (String × String))
      (entriesB : List (String × SVal)),
      List.Forall₂ (entryAgrees fields) entriesA entriesB →
      ∀ filled, fillA fields filled entriesA = fillB fields filled entriesB := by
    intro entriesA entriesB h
    induction h with
    | nil => intro filled; rw [fillA, fillB]
    | @cons ea eb la lb hab hrest ih =>
      intro filled
      obtain ⟨ka, va⟩ := ea
      obtain ⟨kb, vb⟩ := eb
      obtain ⟨hkey, hval⟩ := hab
      obtain rfl : ka = kb := hkey
      rw [fillA, fillB]
      split
      next hff =>
        exact ih filled
      next i f hff =>
        have hv : valD f.shape ka va = svalD f.shape vb := hval i f hff
        cases hs : (filled.getD i none).isSome
        · simp only [Bool.false_eq_true, if_false]
          cases hvd : valD f.shape ka va with
          | error e =>
            rw [← hv, hvd]
          | ok fv =>
            rw [← hv, hvd]
            exact ih (filled.set i (some fv))
        · rfl
  intro entriesA entriesB h
  rw [bindRecordA, bindRecordB, hfill entriesA entriesB h]

/-- C9 (witness): the serde-attributes test type (renamed keys, a default
supplier) bound in Mode A from the capture pairs of `"42:non_default"`
and in Mode B from the equivalent structured entries — same record, with
the default supplier filling the missing renamed field in both modes. -/
theorem claim_C9_witness :
    List.Forall₂ (entryAgrees testShape)
      [("second_rename", "42"), ("ThirdAttribute", "non_default")]
      [("second_rename", SVal.i 42), ("ThirdAttribute", SVal.s "non_default")] ∧
    bindRecordA testShape
        [("second_rename", "42"), ("ThirdAttribute", "non_default")] =
      bindRecordB testShape
        [("second_rename", SVal.i 42), ("ThirdAttribute", SVal.s "non_default")] ∧
    bindRecordA testShape
        [("second_rename", "42"), ("ThirdAttribute", "non_default")] =
      .ok [.vStr "Some default", .vInt 42, .vStr "non_default"] := by
  have hforall : List.Forall₂ (entryAgrees testShape)
      [("second_rename", "42"), ("ThirdAttribute", "non_default")]
      [("second_rename", SVal.i 42), ("ThirdAttribute", SVal.s "non_default")] := by
    refine .cons ⟨rfl, ?_⟩ (.cons ⟨rfl, ?_⟩ .nil)
    · intro i f hff
      have hff' : some (1, FieldSpec.mk "second_rename" none (.scalar .sU32)) =
          some (i, f) := by rw [← hff]; rfl
      injection hff' with h6
      obtain ⟨h7, h8⟩ := Prod.mk.inj h6
      subst h7
      subst h8
      show valD (.scalar .sU32) "second_rename" "42" =
        svalD (.scalar .sU32) (SVal.i 42)
      rw [valD, svalD]
      rfl
    · intro i f hff
      have hff' : some (2, FieldSpec.mk "ThirdAttribute" none (.scalar .sStr)) =
          some (i, f) := by rw [← hff]; rfl
      injection hff' with h6
      obtain ⟨h7, h8⟩ := Prod.mk.inj h6
      subst h7
      subst h8
      show valD (.scalar .sStr) "ThirdAttribute" "non_default" =
        svalD (.scalar .sStr) (SVal.s "non_default")
      rw [valD, svalD]
      rfl
  refine ⟨hforall, claim_C9 testShape _ _ hforall, ?_⟩
  simp [bindRecordA, testShape, fillA, findField, FieldSpec.key, valD,
    parseScalar, coerceUnsigned, parseUnsigned, parseUDigits, finalizeFields,
    FieldSpec.dflt, FieldSpec.shape, FieldShape.isOptional, Except.map]

end Recap
